import Mathlib

/-!
Shallow embedding of the pyreg regex front end (src/parsing/lexer.py and
src/parsing/parser.py) and proofs about it.

Conventions of the embedding:
* Python strings become `String` / `List Char`; `text[pos]` becomes
  `List.get?`.
* Python `str.isspace` / `str.isdigit` / `str.isalnum` become
  `Char.isWhitespace` / `Char.isDigit` / `Char.isAlphanum` (they agree on
  ASCII, which is all these tests are applied to by the claims).
* Raising `LexerError` / `ParserError` becomes returning `Except.error`
  with an `Err` value carrying the same message and position.
* The mutually recursive parser functions take a `Nat` fuel argument so the
  recursion is structural; `parse` supplies more fuel than any input can
  consume, and every universal theorem quantifies over the fuel.
* `while` loops become tail-recursive helper functions (`..._loop`) or the
  corresponding list combinators (`takeWhile` for `Chars.next_while`).
-/

namespace Pyreg

/-- A token produced by the lexer: `Token` in src/parsing/lexer.py, with a
type tag, a payload dict (an association list here) and a 0-based position. -/
structure Token where
  type : String
  value : List (String × String)
  pos : Nat

/-- Lookup of a payload field, `tok.value["k"]` in the source.  The lexer
only builds payloads holding exactly the keys each token type is read with,
so the `""` default is never exercised. -/
def getVal (v : List (String × String)) (k : String) : String :=
  match v.find? (fun p => p.1 = k) with
  | some p => p.2
  | none => ""

/-- The two exception types of the source, `LexerError` and `ParserError`,
each carrying a message and a 0-based position. -/
inductive Err where
  | lexerE (msg : String) (pos : Nat)
  | parserE (msg : String) (pos : Nat)
deriving DecidableEq

/-- `Chars` (src/parsing/lexer.py): an iterator over the characters of a
string, holding the text and the current position. -/
structure Chars where
  text : List Char
  pos : Nat

namespace Chars

/-- `Chars.next`: return the next character, or `none` at the end, and the
advanced cursor. -/
def next (c : Chars) : Option Char × Chars :=
  match c.text.get? c.pos with
  | none => (none, c)
  | some ch => (some ch, { c with pos := c.pos + 1 })

/-- `Chars.peek` (with the default `ahead = 0`, the only form the lexer
uses): the next character without consuming it. -/
def peek (c : Chars) : Option Char :=
  c.text.get? c.pos

/-- `Chars.next_if`: consume and return the next character if it satisfies
the predicate. -/
def next_if (c : Chars) (pred : Char → Bool) : Option Char × Chars :=
  match c.peek with
  | some ch => if pred ch then c.next else (none, c)
  | none => (none, c)

/-- `Chars.next_while`: consume characters while the predicate holds and
return them as a string (the loop advances `pos` once per character taken,
which is exactly `takeWhile` on the remaining text). -/
def next_while (c : Chars) (pred : Char → Bool) : String × Chars :=
  let taken := (c.text.drop c.pos).takeWhile pred
  (String.mk taken, { c with pos := c.pos + taken.length })

end Chars

/-- `Lexer.singles`: the single-character token table. -/
def singles (ch : Char) : Option String :=
  if ch = '(' then some "l-paren"
  else if ch = ')' then some "r-paren"
  else if ch = '[' then some "l-bracket"
  else if ch = ']' then some "r-bracket"
  else if ch = '|' then some "or"
  else if ch = '*' then some "star"
  else if ch = '+' then some "plus"
  else if ch = '?' then some "question"
  else if ch = '.' then some "dot"
  else if ch = '^' then some "caret"
  else none

/-- `Lexer._parse_repeat`: parse the tail of a repeat token `{n,m}` (the
opening brace has been consumed; `cs.pos - 1` is its index). -/
def parseRepeatTok (cs : Chars) : Except Err (Token × Chars) :=
  let start := cs.pos - 1
  let p1 := cs.next_while Char.isDigit
  match p1.2.next_if (fun c => c = ',') with
  | (none, cs2) => .error (.lexerE "Expected ','" cs2.pos)
  | (some _, cs2) =>
    let p2 := cs2.next_while Char.isDigit
    match p2.2.next_if (fun c => c = '\x7d') with
    | (none, cs3) => .error (.lexerE "Expected '\x7d'" cs3.pos)
    | (some _, cs3) => .ok (⟨"repeat", [("min", p1.1), ("max", p2.1)], start⟩, cs3)

/-- `Lexer._parse_class`: parse the tail of a class token `:name:`. -/
def parseClassTok (cs : Chars) : Except Err (Token × Chars) :=
  let start := cs.pos - 1
  let p := cs.next_while (fun c => c.isAlphanum)
  match p.2.next_if (fun c => c = ':') with
  | (none, cs2) => .error (.lexerE "Expected ':'" cs2.pos)
  | (some _, cs2) => .ok (⟨"class", [("val", p.1)], start⟩, cs2)

/-- `Lexer._parse_escape`: parse the character after a backslash (the
backslash has been consumed). -/
def parseEscapeTok (cs : Chars) : Except Err (Token × Chars) :=
  let start := cs.pos - 1
  match cs.next with
  | (none, cs2) => .error (.lexerE "Expected character after '\\'" cs2.pos)
  | (some ch, cs2) => .ok (⟨"char", [("val", String.singleton ch)], start⟩, cs2)

/-- `Lexer._parse_range`: parse a range token `a-z`; `first` has been
consumed and the next character is the dash. -/
def parseRangeTok (first : Char) (cs : Chars) : Except Err (Token × Chars) :=
  let start := cs.pos - 1
  let p := cs.next
  match p.2.next with
  | (none, cs2) => .error (.lexerE "Expected character after '-'." cs2.pos)
  | (some last, cs2) =>
    .ok (⟨"range", [("first", String.singleton first), ("last", String.singleton last)], start⟩, cs2)

/-- `Lexer._next`: produce the next token from the character stream, or
`none` at the end of input.  Whitespace is skipped first; then the consumed
character is dispatched exactly as in the source. -/
def lexNext (cs0 : Chars) : Except Err (Option Token × Chars) :=
  let ws := cs0.next_while Char.isWhitespace
  match ws.2.next with
  | (none, cs) => .ok (none, cs)
  | (some ch, cs) =>
    match singles ch with
    | some t => .ok (some ⟨t, [], cs.pos - 1⟩, cs)
    | none =>
      if ch = '\x7b' then (parseRepeatTok cs).map (fun p => (some p.1, p.2))
      else if ch = ':' then (parseClassTok cs).map (fun p => (some p.1, p.2))
      else if ch = '\\' then (parseEscapeTok cs).map (fun p => (some p.1, p.2))
      else if cs.peek = some '-' then (parseRangeTok ch cs).map (fun p => (some p.1, p.2))
      else .ok (some ⟨"char", [("val", String.singleton ch)], cs.pos - 1⟩, cs)

/-- `Lexer`: the token stream, a character cursor plus the cached lookahead
token (`self.current`). -/
structure Lexer where
  chars : Chars
  current : Option Token

namespace Lexer

/-- `Lexer.__init__`: start the cursor at position 0 and precompute the
first token (which can already fail with a lexical error). -/
def make (re : String) : Except Err Lexer :=
  match lexNext ⟨re.data, 0⟩ with
  | .error e => .error e
  | .ok p => .ok ⟨p.2, p.1⟩

/-- `Lexer.peek`: the cached token. -/
def peek (l : Lexer) : Option Token :=
  l.current

/-- `Lexer.next`: return the cached token and precompute the following one
(which can fail with a lexical error). -/
def next (l : Lexer) : Except Err (Option Token × Lexer) :=
  match lexNext l.chars with
  | .error e => .error e
  | .ok p => .ok (l.current, ⟨p.2, p.1⟩)

/-- `Lexer.pos`: the position property, `self.chars.pos`. -/
def pos (l : Lexer) : Nat :=
  l.chars.pos

end Lexer

/-- The AST node variants of src/parsing/parser.py.  `Repeat.max = -1`
means unbounded, so `min` and `max` are `Int` as in the source (Python
ints); `Range`'s second field is called `end` in Python, a Lean keyword,
so it is `stop` here. -/
inductive AST where
  | Or (exprs : List AST)
  | Concat (exprs : List AST)
  | Repeat (expr : AST) (min max : Int)
  | Set (negated : Bool) (exprs : List AST)
  | Dot
  | Char (char : String)
  | Range (start stop : String)
  | Class (name : String)

mutual

/-- Structural equality of AST values, as `@dataclass(frozen=True,
eq=True)` defines `==` on the node classes.  The `Nat` argument is fuel
making the recursion structural (and hence kernel-reducible); `false` at
fuel 0 keeps the check sound. -/
def AST.beqN : Nat → AST → AST → Bool
  | 0, _, _ => false
  | n + 1, a, b =>
    match a, b with
    | .Or xs, .Or ys => AST.beqsN n xs ys
    | .Concat xs, .Concat ys => AST.beqsN n xs ys
    | .Repeat e1 mn1 mx1, .Repeat e2 mn2 mx2 =>
      AST.beqN n e1 e2 && decide (mn1 = mn2) && decide (mx1 = mx2)
    | .Set n1 xs, .Set n2 ys => decide (n1 = n2) && AST.beqsN n xs ys
    | .Dot, .Dot => true
    | .Char c1, .Char c2 => decide (c1 = c2)
    | .Range a1 b1, .Range a2 b2 => decide (a1 = a2) && decide (b1 = b2)
    | .Class s1, .Class s2 => decide (s1 = s2)
    | _, _ => false

/-- Elementwise `AST.beqN` on lists of nodes. -/
def AST.beqsN : Nat → List AST → List AST → Bool
  | 0, _, _ => false
  | _ + 1, [], [] => true
  | n + 1, x :: xs, y :: ys => AST.beqN n x y && AST.beqsN n xs ys
  | _ + 1, _, _ => false

end

/-- `AST.beqN` lifted to parse results: structural equality of two
`parse` outcomes. -/
def exceptBeqN (n : Nat) : Except Err AST → Except Err AST → Bool
  | .ok a, .ok b => AST.beqN n a b
  | .error e1, .error e2 => decide (e1 = e2)
  | _, _ => false

/-- Well-formedness of an AST: every `Or` and every `Concat` node anywhere
in the tree has at least two children. -/
inductive GoodArity : AST → Prop where
  | orN : ∀ exprs, 2 ≤ exprs.length → (∀ e ∈ exprs, GoodArity e) →
      GoodArity (.Or exprs)
  | concatN : ∀ exprs, 2 ≤ exprs.length → (∀ e ∈ exprs, GoodArity e) →
      GoodArity (.Concat exprs)
  | repeatN : ∀ e mn mx, GoodArity e → GoodArity (.Repeat e mn mx)
  | setN : ∀ negated exprs, (∀ e ∈ exprs, GoodArity e) →
      GoodArity (.Set negated exprs)
  | dotN : GoodArity .Dot
  | charN : ∀ c, GoodArity (.Char c)
  | rangeN : ∀ a b, GoodArity (.Range a b)
  | classN : ∀ s, GoodArity (.Class s)

/-- Python `int()` as the parser applies it to the lexer's decimal digit
runs (`int(tok.value["min"])`). -/
def pyInt (s : String) : Int :=
  (s.data.foldl (fun n c => 10 * n + (c.toNat - 48)) 0 : Nat)

/-- The error returned when the fuel of the embedding runs out.  `parse`
passes more fuel than any input can use, so this is never the outcome of
`parse`; universal theorems quantify over the fuel, so no claim depends on
this value. -/
def fuelOut : Err :=
  .parserE "recursion limit" 0

mutual

/-- `_set` (parser.py): parse a set expression; the opening bracket has
already been consumed.  A leading caret token sets `negated`. -/
def pSet : Nat → Lexer → Except Err (AST × Lexer)
  | 0, _ => .error fuelOut
  | fuel + 1, l =>
    match l.peek with
    | some tok =>
      if tok.type = "caret" then
        match l.next with
        | .error e => .error e
        | .ok p => pSetLoop fuel p.2 true []
      else pSetLoop fuel l false []
    | none => pSetLoop fuel l false []

/-- The member loop of `_set`: `while (tok := lexer.next()) and
tok.type != "r-bracket"`, dispatching on the member token; the loop also
stops when `lexer.next()` yields no token (end of input). -/
def pSetLoop : Nat → Lexer → Bool → List AST → Except Err (AST × Lexer)
  | 0, _, _, _ => .error fuelOut
  | fuel + 1, l, negated, exprs =>
    match l.next with
    | .error e => .error e
    | .ok (none, l1) => .ok (.Set negated exprs, l1)
    | .ok (some tok, l1) =>
      if tok.type = "r-bracket" then .ok (.Set negated exprs, l1)
      else if tok.type = "char" then
        pSetLoop fuel l1 negated (exprs ++ [.Char (getVal tok.value "val")])
      else if tok.type = "range" then
        pSetLoop fuel l1 negated (exprs ++ [.Range (getVal tok.value "first") (getVal tok.value "last")])
      else if tok.type = "class" then
        pSetLoop fuel l1 negated (exprs ++ [.Class (getVal tok.value "val")])
      else if tok.type = "dot" then
        pSetLoop fuel l1 negated (exprs ++ [.Dot])
      else if tok.type = "l-bracket" then
        match pSet fuel l1 with
        | .error e => .error e
        | .ok (s, l2) => pSetLoop fuel l2 negated (exprs ++ [s])
      else .error (.parserE ("Unexpected token " ++ tok.type) l1.pos)

/-- `_atom` (parser.py): a character, a dot, a parenthesised alternation or
a set; anything else (or end of input) is a parse error. -/
def pAtom : Nat → Lexer → Except Err (AST × Lexer)
  | 0, _ => .error fuelOut
  | fuel + 1, l =>
    match l.next with
    | .error e => .error e
    | .ok (none, l1) => .error (.parserE "Unexpected end of input" l1.pos)
    | .ok (some tok, l1) =>
      if tok.type = "char" then .ok (.Char (getVal tok.value "val"), l1)
      else if tok.type = "dot" then .ok (.Dot, l1)
      else if tok.type = "l-paren" then
        match pOr fuel l1 with
        | .error e => .error e
        | .ok (expr, l2) =>
          match l2.next with
          | .error e => .error e
          | .ok (some tok2, l3) =>
            if tok2.type = "r-paren" then .ok (expr, l3)
            else .error (.parserE "Expected ')'" l3.pos)
          | .ok (none, l3) => .error (.parserE "Expected ')'" l3.pos)
      else if tok.type = "l-bracket" then pSet fuel l1
      else .error (.parserE ("Unexpected token " ++ tok.type) l1.pos)

/-- `_repeat` (parser.py): an atom optionally followed by one quantifier
token; `star` gives bounds `(0, -1)`, `plus` `(1, -1)`, `question`
`(0, 1)` and a `repeat` token its `min`/`max` digit strings with `0`/`-1`
defaults for the empty string. -/
def pRepeat : Nat → Lexer → Except Err (AST × Lexer)
  | 0, _ => .error fuelOut
  | fuel + 1, l =>
    match pAtom fuel l with
    | .error e => .error e
    | .ok (expr, l1) =>
      match l1.peek with
      | none => .ok (expr, l1)
      | some tok =>
        if tok.type = "star" then
          match l1.next with
          | .error e => .error e
          | .ok p => .ok (.Repeat expr 0 (-1), p.2)
        else if tok.type = "plus" then
          match l1.next with
          | .error e => .error e
          | .ok p => .ok (.Repeat expr 1 (-1), p.2)
        else if tok.type = "question" then
          match l1.next with
          | .error e => .error e
          | .ok p => .ok (.Repeat expr 0 1, p.2)
        else if tok.type = "repeat" then
          match l1.next with
          | .error e => .error e
          | .ok p =>
            .ok (.Repeat expr
              (if getVal tok.value "min" ≠ "" then pyInt (getVal tok.value "min") else 0)
              (if getVal tok.value "max" ≠ "" then pyInt (getVal tok.value "max") else -1), p.2)
        else .ok (expr, l1)

/-- `_concat` (parser.py): one `_repeat` term, then the term loop; a single
term is returned unwrapped. -/
def pConcat : Nat → Lexer → Except Err (AST × Lexer)
  | 0, _ => .error fuelOut
  | fuel + 1, l =>
    match pRepeat fuel l with
    | .error e => .error e
    | .ok (e1, l1) => pConcatLoop fuel l1 [e1]

/-- The term loop of `_concat`: `while (tok := lexer.peek()) and tok.type
not in ("or", "r-paren")`, then collapse a singleton list to its element. -/
def pConcatLoop : Nat → Lexer → List AST → Except Err (AST × Lexer)
  | 0, _, _ => .error fuelOut
  | fuel + 1, l, exprs =>
    match l.peek with
    | some tok =>
      if tok.type ≠ "or" ∧ tok.type ≠ "r-paren" then
        match pRepeat fuel l with
        | .error e => .error e
        | .ok (e2, l1) => pConcatLoop fuel l1 (exprs ++ [e2])
      else
        .ok (match exprs with | [e] => e | _ => .Concat exprs, l)
    | none =>
      .ok (match exprs with | [e] => e | _ => .Concat exprs, l)

/-- `_or` (parser.py): one `_concat` alternative, then the alternative
loop; a single alternative is returned unwrapped. -/
def pOr : Nat → Lexer → Except Err (AST × Lexer)
  | 0, _ => .error fuelOut
  | fuel + 1, l =>
    match pConcat fuel l with
    | .error e => .error e
    | .ok (e1, l1) => pOrLoop fuel l1 [e1]

/-- The alternative loop of `_or`: `while (tok := lexer.peek()) and
tok.type == "or"`, consuming the `or` token before each further
alternative, then collapse a singleton list to its element. -/
def pOrLoop : Nat → Lexer → List AST → Except Err (AST × Lexer)
  | 0, _, _ => .error fuelOut
  | fuel + 1, l, exprs =>
    match l.peek with
    | some tok =>
      if tok.type = "or" then
        match l.next with
        | .error e => .error e
        | .ok p =>
          match pConcat fuel p.2 with
          | .error e => .error e
          | .ok (e2, l1) => pOrLoop fuel l1 (exprs ++ [e2])
      else
        .ok (match exprs with | [e] => e | _ => .Or exprs, l)
    | none =>
      .ok (match exprs with | [e] => e | _ => .Or exprs, l)

end

/-- `parse` (parser.py): build the lexer, parse one `or` production and
require the token stream to be exhausted.  The trailing-token message
interpolates the token's repr in the source; here only its type is
recorded, which no claim depends on.  The fuel `8 * length + 8` exceeds
the recursion depth plus loop iteration count any input of that length can
reach (every consumed token advances the cursor). -/
def parse (text : String) : Except Err AST :=
  match Lexer.make text with
  | .error e => .error e
  | .ok lexer =>
    match pOr (8 * text.length + 8) lexer with
    | .error e => .error e
    | .ok (expr, l1) =>
      match l1.peek with
      | none => .ok expr
      | some _ =>
        match l1.next with
        | .error e => .error e
        | .ok (t, l2) =>
          .error (.parserE ("Unexpected token " ++ (match t with | some tok => tok.type | none => "")) l2.pos)

/-- Soundness of the fueled structural equality: a `true` verdict at any
fuel implies propositional equality.  (Used to transport kernel-evaluated
comparisons of parse results into equalities.) -/
theorem AST.eq_of_beqN :
    ∀ n : Nat, (∀ a b : AST, AST.beqN n a b = true → a = b) ∧
      (∀ xs ys : List AST, AST.beqsN n xs ys = true → xs = ys) := by
  intro n
  induction n with
  | zero =>
    exact ⟨fun a b h => by simp [AST.beqN] at h,
      fun xs ys h => by simp [AST.beqsN] at h⟩
  | succ n ih =>
    constructor
    · intro a b h
      cases a <;> cases b <;> simp [AST.beqN] at h ⊢
      · exact ih.2 _ _ h
      · exact ih.2 _ _ h
      · exact ⟨ih.1 _ _ h.1.1, h.1.2, h.2⟩
      · exact ⟨h.1, ih.2 _ _ h.2⟩
      · exact h
      · exact h
      · exact h
    · intro xs ys h
      cases xs <;> cases ys <;> simp [AST.beqsN] at h ⊢
      exact ⟨ih.1 _ _ h.1, ih.2 _ _ h.2⟩

/-- Soundness of `exceptBeqN`: a `true` verdict implies the two parse
results are equal. -/
theorem exceptBeqN_sound (n : Nat) (x y : Except Err AST)
    (h : exceptBeqN n x y = true) : x = y := by
  cases x <;> cases y <;> simp [exceptBeqN] at h ⊢
  · exact h
  · exact (AST.eq_of_beqN n).1 _ _ h

/-- C1: a quantifier produces a `Repeat` node wrapping exactly the atom
parsed immediately before it, with bounds `(0, -1)` for `star`, `(1, -1)`
for `plus`, `(0, 1)` for `question`, and for a `repeat` token `{m,n}` the
digit strings with defaults `0` for an omitted `m` and `-1` for an omitted
`n`; and concretely `parse "a*b?c+d{2,3}"` is a `Concat` of four `Repeat`
nodes with bounds `(0,-1), (0,1), (1,-1), (2,3)`, each wrapping the
corresponding `Char`. -/
theorem c1_quantifier_bounds (fuel : Nat) (l l1 l2 : Lexer) (e : AST) (t : Token)
    (h1 : pAtom fuel l = .ok (e, l1)) (h2 : Lexer.next l1 = .ok (some t, l2)) :
    ((t.type = "star" → pRepeat (fuel + 1) l = .ok (.Repeat e 0 (-1), l2)) ∧
     (t.type = "plus" → pRepeat (fuel + 1) l = .ok (.Repeat e 1 (-1), l2)) ∧
     (t.type = "question" → pRepeat (fuel + 1) l = .ok (.Repeat e 0 1, l2)) ∧
     (t.type = "repeat" → pRepeat (fuel + 1) l = .ok (.Repeat e
        (if getVal t.value "min" ≠ "" then pyInt (getVal t.value "min") else 0)
        (if getVal t.value "max" ≠ "" then pyInt (getVal t.value "max") else -1), l2))) ∧
    parse "a*b?c+d\x7b2,3\x7d" = .ok (.Concat [.Repeat (.Char "a") 0 (-1),
      .Repeat (.Char "b") 0 1, .Repeat (.Char "c") 1 (-1),
      .Repeat (.Char "d") 2 3]) :=
  have hcur : l1.current = some t := by
    unfold Lexer.next at h2
    cases hl : lexNext l1.chars with
    | error err => rw [hl] at h2; exact Except.noConfusion h2
    | ok p =>
      rw [hl] at h2
      injection h2 with h
      exact congrArg Prod.fst h
  ⟨by
    refine ⟨?_, ?_, ?_, ?_⟩ <;> intro ht <;>
      simp [pRepeat, h1, Lexer.peek, hcur, ht, h2],
   exceptBeqN_sound 32 _ _ (by decide!)⟩

/-- Witness for C1: the quantifier theorem applied to the concrete state
the lexer reaches inside "a*" after the atom `a` has been parsed and the
`star` token is the lookahead. -/
theorem c1_quantifier_bounds_witness :
    pRepeat 2 ⟨⟨"a*".data, 1⟩, some ⟨"char", [("val", "a")], 0⟩⟩ =
      .ok (.Repeat (.Char "a") 0 (-1), ⟨⟨"a*".data, 2⟩, none⟩) :=
  ((c1_quantifier_bounds 1 ⟨⟨"a*".data, 1⟩, some ⟨"char", [("val", "a")], 0⟩⟩
      ⟨⟨"a*".data, 2⟩, some ⟨"star", [], 1⟩⟩ ⟨⟨"a*".data, 2⟩, none⟩ (.Char "a")
      ⟨"star", [], 1⟩ rfl rfl).1.1) rfl

/-- C2: the claim states that a bracket expression opened with `[` whose
input ends before the matching `]` (for example the pattern "[ab") makes
`parse` fail with a parse error.  The code does not: the member loop of
`_set` (`while (tok := lexer.next()) and tok.type != "r-bracket"`) also
stops when the stream is exhausted, so `parse "[ab"` succeeds and returns
the set as if it had been closed, contradicting the grammar in the
parser's own module docstring (`set ::= 'l-bracket' ... 'r-bracket'`). -/
theorem c2_unclosed_set_accepted :
    parse "[ab" = .ok (.Set false [.Char "a", .Char "b"]) := by
  rfl

/-- C3: the Character Cursor does not resolve backslash escapes itself.
`Chars.next` on "\\a" returns the raw backslash (not "a"); iterating
`Chars` over "a\\" yields 'a' and then the raw backslash without any
error; the escape is resolved one layer up, by `Lexer._next` /
`Lexer._parse_escape` (`lexNext` here), which turns "\\a" into a `char`
token carrying "a" and raises `LexerError` (not any `UnterminatedEscape`)
on a dangling backslash. -/
theorem c3_cursor_returns_backslash :
    (Chars.next ⟨"\\a".data, 0⟩).1 = some '\\' ∧
    (Chars.next ⟨"a\\".data, 1⟩).1 = some '\\' ∧
    Lexer.make "\\a" = .ok ⟨⟨"\\a".data, 2⟩, some ⟨"char", [("val", "a")], 0⟩⟩ ∧
    Lexer.make "a\\" = .ok ⟨⟨"a\\".data, 1⟩, some ⟨"char", [("val", "a")], 0⟩⟩ ∧
    lexNext ⟨"a\\".data, 1⟩ = .error (.lexerE "Expected character after '\\'" 2) := by
  exact ⟨rfl, rfl, rfl, rfl, rfl⟩

/-- C4: each of the malformed patterns "(a" (unclosed group), "a{1"
(unterminated repeat) and "a\\" (dangling escape) makes `parse` fail, with
a message naming the expected token or character and a reported 0-based
position no greater than the length of the input. -/
theorem c4_malformed_inputs_error :
    (parse "(a" = .error (.parserE "Expected ')'" 2) ∧ 2 ≤ "(a".length) ∧
    (parse "a\x7b1" = .error (.lexerE "Expected ','" 3) ∧ 3 ≤ "a\x7b1".length) ∧
    (parse "a\\" = .error (.lexerE "Expected character after '\\'" 2) ∧
      2 ≤ "a\\".length) := by
  exact ⟨⟨rfl, by decide⟩, ⟨rfl, by decide⟩, ⟨rfl, by decide⟩⟩

/-- C5: a backslash-escape always yields a literal: whenever the raw text
at the cursor is a backslash followed by any character `c`, the lexer's
next token is a `char` token carrying exactly `c` (no operator token kind
is ever produced from an escape), and the parser maps a `char` token in
atom position to a `Char` node; concretely the escaped metacharacters in
"\\*" and "\\[a\\]" parse to `Char` nodes and not to `Repeat` or `Set`
nodes. -/
theorem c5_escaped_literal_char :
    (∀ (cs : Chars) (c : Char) (rest : List Char),
      cs.text.drop cs.pos = '\\' :: c :: rest →
      lexNext cs =
        .ok (some ⟨"char", [("val", String.singleton c)], cs.pos⟩,
          ⟨cs.text, cs.pos + 2⟩)) ∧
    (∀ (fuel : Nat) (l l1 : Lexer) (tok : Token),
      Lexer.next l = .ok (some tok, l1) → tok.type = "char" →
      pAtom (fuel + 1) l = .ok (.Char (getVal tok.value "val"), l1)) ∧
    parse "\\*" = .ok (.Char "*") ∧
    parse "\\[a\\]" = .ok (.Concat [.Char "[", .Char "a", .Char "]"]) := by
  refine ⟨?_, ?_, rfl, rfl⟩
  · intro cs c rest h
    obtain ⟨t, p⟩ := cs
    simp only at h ⊢
    have h0 : t[p]? = some '\\' := by
      have hd := List.getElem?_drop t p 0
      rw [h] at hd
      simpa using hd.symm
    have h1 : t[p + 1]? = some c := by
      have hd := List.getElem?_drop t p 1
      rw [h] at hd
      simpa using hd.symm
    simp [lexNext, Chars.next_while, Chars.next, Chars.peek, parseEscapeTok,
      singles, Except.map, h, h0, h1]
  · intro fuel l l1 tok h2 ht
    have hcur : l.current = some tok := by
      unfold Lexer.next at h2
      cases hl : lexNext l.chars with
      | error err => rw [hl] at h2; exact Except.noConfusion h2
      | ok p =>
        rw [hl] at h2
        injection h2 with hh
        exact congrArg Prod.fst hh
    simp [pAtom, h2, ht]

/-- C9: `parse "[^.]"` yields a negated set holding a dot, and
`parse "[a-z[0-9]]"` yields a set holding the range a-z and a nested set
holding the range 0-9: negation comes from the leading caret, `x-y`
becomes a `Range` node, and `[` inside a set recursively parses a nested
set member. -/
theorem c9_negation_range_nested :
    parse "[^.]" = .ok (.Set true [.Dot]) ∧
    parse "[a-z[0-9]]" =
      .ok (.Set false [.Range "a" "z", .Set false [.Range "0" "9"]]) := by
  exact ⟨rfl, by rfl⟩

/-- C7: with no lookahead token left, `_concat` still parses at least one
`_repeat`, whose `_atom` fails with "Unexpected end of input"; hence an
empty alternative such as "a|" is a parse error, the empty pattern "" is a
parse error, and an empty alternative in the middle ("a||b") is rejected
too (there with "Unexpected token or"). -/
theorem c7_empty_alternative_error (fuel : Nat) (l : Lexer)
    (h : l.current = none) :
    pConcat (fuel + 3) l =
      (match lexNext l.chars with
       | .error e => .error e
       | .ok p => .error (.parserE "Unexpected end of input" p.2.pos)) ∧
    parse "a|" = .error (.parserE "Unexpected end of input" 2) ∧
    parse "" = .error (.parserE "Unexpected end of input" 0) ∧
    parse "a||b" = .error (.parserE "Unexpected token or" 4) := by
  refine ⟨?_, rfl, rfl, rfl⟩
  cases hl : lexNext l.chars with
  | error e => simp [pConcat, pRepeat, pAtom, Lexer.next, hl, h]
  | ok p => simp [pConcat, pRepeat, pAtom, Lexer.next, Lexer.pos, hl, h]

/-- Witness for C7: the empty-lookahead theorem applied to the lexer state
on the empty input, where `_concat` indeed reports "Unexpected end of
input" at position 0. -/
theorem c7_empty_alternative_error_witness :
    pConcat 3 ⟨⟨[], 0⟩, none⟩ =
      .error (.parserE "Unexpected end of input" 0) :=
  (c7_empty_alternative_error 0 ⟨⟨[], 0⟩, none⟩ rfl).1

/-- C8: inside a bracket expression a caret is negation only as the very
first token: `_set` consumes a leading `caret` token and sets `negated`,
while the member loop, meeting a `caret` token at any later position,
fails with "Unexpected token caret" (its dispatch accepts only `char`,
`range`, `class`, `dot` and `l-bracket` members before the closing
bracket); concretely "[a^]" is rejected and "[^a]" is a negated set. -/
theorem c8_caret_only_first (fuel : Nat) (l l1 : Lexer) (neg : Bool)
    (acc : List AST) (tok : Token)
    (h1 : Lexer.next l = .ok (some tok, l1)) (h2 : tok.type = "caret") :
    pSetLoop (fuel + 1) l neg acc =
      .error (.parserE "Unexpected token caret" l1.pos) ∧
    (∀ fuel2 : Nat, l.current = some tok →
      pSet (fuel2 + 1) l = pSetLoop fuel2 l1 true []) ∧
    parse "[a^]" = .error (.parserE "Unexpected token caret" 4) ∧
    parse "[^a]" = .ok (.Set true [.Char "a"]) := by
  refine ⟨?_, ?_, rfl, rfl⟩
  · simp [pSetLoop, h1, h2]
  · intro fuel2 hcur
    simp [pSet, Lexer.peek, hcur, h2, h1]

/-- Witness for C8: the member-loop theorem applied to the lexer state
inside "^]" whose lookahead is a caret token that is not in first
position. -/
theorem c8_caret_only_first_witness :
    pSetLoop 1 ⟨⟨"^]".data, 1⟩, some ⟨"caret", [], 0⟩⟩ false [] =
      .error (.parserE "Unexpected token caret" 2) :=
  (c8_caret_only_first 0 ⟨⟨"^]".data, 1⟩, some ⟨"caret", [], 0⟩⟩
    ⟨⟨"^]".data, 2⟩, some ⟨"r-bracket", [], 1⟩⟩ false [] ⟨"caret", [], 0⟩
    rfl rfl).1

/-- Appending one well-formed node keeps a member list well-formed. -/
theorem goodArity_append {acc : List AST} {x : AST}
    (hacc : ∀ e ∈ acc, GoodArity e) (hx : GoodArity x) :
    ∀ e ∈ acc ++ [x], GoodArity e := by
  intro e he
  rcases List.mem_append.1 he with h | h
  · exact hacc _ h
  · rw [List.mem_singleton.1 h]; exact hx

/-- Every parser production only returns well-formed ASTs: for every fuel,
each of the mutually recursive parsing functions, on success, returns a
tree in which every `Or`/`Concat` node has at least two children (for the
loops, under the invariant that the accumulated members are well-formed,
and nonempty where the loop collapses singletons). -/
theorem goodArity_all : ∀ fuel : Nat,
    (∀ l r, pSet fuel l = .ok r → GoodArity r.1) ∧
    (∀ l neg acc r, (∀ e ∈ acc, GoodArity e) →
      pSetLoop fuel l neg acc = .ok r → GoodArity r.1) ∧
    (∀ l r, pAtom fuel l = .ok r → GoodArity r.1) ∧
    (∀ l r, pRepeat fuel l = .ok r → GoodArity r.1) ∧
    (∀ l acc r, acc ≠ [] → (∀ e ∈ acc, GoodArity e) →
      pConcatLoop fuel l acc = .ok r → GoodArity r.1) ∧
    (∀ l r, pConcat fuel l = .ok r → GoodArity r.1) ∧
    (∀ l acc r, acc ≠ [] → (∀ e ∈ acc, GoodArity e) →
      pOrLoop fuel l acc = .ok r → GoodArity r.1) ∧
    (∀ l r, pOr fuel l = .ok r → GoodArity r.1) := by
  intro fuel
  induction fuel with
  | zero =>
    refine ⟨?_, ?_, ?_, ?_, ?_, ?_, ?_, ?_⟩ <;> intro l <;> intros <;>
      simp_all [pSet, pSetLoop, pAtom, pRepeat, pConcatLoop, pConcat,
        pOrLoop, pOr, fuelOut]
  | succ n ih =>
    obtain ⟨ihSet, ihSetLoop, ihAtom, ihRepeat, ihConcatLoop, ihConcat,
      ihOrLoop, ihOr⟩ := ih
    refine ⟨?_, ?_, ?_, ?_, ?_, ?_, ?_, ?_⟩
    · -- pSet
      intro l r h
      simp only [pSet] at h
      split at h
      · split_ifs at h
        · split at h
          · simp at h
          · exact ihSetLoop _ _ _ _ (by simp) h
        · exact ihSetLoop _ _ _ _ (by simp) h
      · exact ihSetLoop _ _ _ _ (by simp) h
    · -- pSetLoop
      intro l neg acc r hacc h
      simp only [pSetLoop] at h
      split at h
      · simp at h
      · injection h with h
        subst h
        exact .setN _ _ hacc
      · split_ifs at h
        · injection h with h
          subst h
          exact .setN _ _ hacc
        · exact ihSetLoop _ _ _ _ (goodArity_append hacc (.charN _)) h
        · exact ihSetLoop _ _ _ _ (goodArity_append hacc (.rangeN _ _)) h
        · exact ihSetLoop _ _ _ _ (goodArity_append hacc (.classN _)) h
        · exact ihSetLoop _ _ _ _ (goodArity_append hacc .dotN) h
        · split at h
          · simp at h
          · next s l2 heq =>
              exact ihSetLoop _ _ _ _
                (goodArity_append hacc (ihSet _ _ heq)) h
    · -- pAtom
      intro l r h
      simp only [pAtom] at h
      split at h
      · simp at h
      · simp at h
      · split at h
        · injection h with h
          subst h
          exact .charN _
        · split at h
          · injection h with h
            subst h
            exact .dotN
          · split at h
            · split at h
              · simp at h
              · next expr l2 heq =>
                  split at h
                  · simp at h
                  · split at h
                    · injection h with h
                      subst h
                      simpa using ihOr _ _ heq
                    · simp at h
                  · simp at h
            · split at h
              · exact ihSet _ _ h
              · simp at h
    · -- pRepeat
      intro l r h
      simp only [pRepeat] at h
      split at h
      · simp at h
      · next expr l1 heq =>
          have hgood := ihAtom _ _ heq
          split at h
          · injection h with h
            subst h
            exact hgood
          · split at h
            · split at h
              · simp at h
              · injection h with h
                subst h
                exact .repeatN _ _ _ (by simpa using hgood)
            · split at h
              · split at h
                · simp at h
                · injection h with h
                  subst h
                  exact .repeatN _ _ _ (by simpa using hgood)
              · split at h
                · split at h
                  · simp at h
                  · injection h with h
                    subst h
                    exact .repeatN _ _ _ (by simpa using hgood)
                · split at h
                  · split at h
                    · simp at h
                    · injection h with h
                      subst h
                      exact .repeatN _ _ _ (by simpa using hgood)
                  · injection h with h
                    subst h
                    exact hgood
    · -- pConcatLoop
      intro l acc r hne hacc h
      simp only [pConcatLoop] at h
      split at h
      · split at h
        · split at h
          · simp at h
          · next e2 l1 heq =>
              exact ihConcatLoop _ _ _ (by simp)
                (goodArity_append hacc (ihRepeat _ _ heq)) h
        · injection h with h
          subst h
          rcases acc with _ | ⟨a, _ | ⟨b, bs⟩⟩
          · exact absurd rfl hne
          · exact hacc _ (by simp)
          · exact .concatN _ (by simp) hacc
      · injection h with h
        subst h
        rcases acc with _ | ⟨a, _ | ⟨b, bs⟩⟩
        · exact absurd rfl hne
        · exact hacc _ (by simp)
        · exact .concatN _ (by simp) hacc
    · -- pConcat
      intro l r h
      simp only [pConcat] at h
      split at h
      · simp at h
      · next e1 l1 heq =>
          exact ihConcatLoop _ _ _ (by simp)
            (by intro e he; rw [List.mem_singleton.1 he]
                exact ihRepeat _ _ heq) h
    · -- pOrLoop
      intro l acc r hne hacc h
      simp only [pOrLoop] at h
      split at h
      · split at h
        · split at h
          · simp at h
          · split at h
            · simp at h
            · next e2 l1 heq =>
                exact ihOrLoop _ _ _ (by simp)
                  (goodArity_append hacc (ihConcat _ _ heq)) h
        · injection h with h
          subst h
          rcases acc with _ | ⟨a, _ | ⟨b, bs⟩⟩
          · exact absurd rfl hne
          · exact hacc _ (by simp)
          · exact .orN _ (by simp) hacc
      · injection h with h
        subst h
        rcases acc with _ | ⟨a, _ | ⟨b, bs⟩⟩
        · exact absurd rfl hne
        · exact hacc _ (by simp)
        · exact .orN _ (by simp) hacc
    · -- pOr
      intro l r h
      simp only [pOr] at h
      split at h
      · simp at h
      · next e1 l1 heq =>
          exact ihOrLoop _ _ _ (by simp)
            (by intro e he; rw [List.mem_singleton.1 he]
                exact ihConcat _ _ heq) h

/-- C6: every `Or` and every `Concat` node anywhere in an AST returned by
`parse` has at least two children. -/
theorem c6_or_concat_arity (s : String) (a : AST)
    (h : parse s = .ok a) : GoodArity a := by
  unfold parse at h
  split at h
  · simp at h
  · split at h
    · simp at h
    · next expr l1 heq =>
        split at h
        · injection h with h
          subst h
          exact (goodArity_all _).2.2.2.2.2.2.2 _ _ heq
        · split at h
          · simp at h
          · simp at h

/-- Witness for C6: the arity theorem applied to the parse of "a|b". -/
theorem c6_or_concat_arity_witness :
    GoodArity (.Or [.Char "a", .Char "b"]) :=
  c6_or_concat_arity "a|b" _ rfl

/-- C10: an empty bracket expression is accepted: `parse "[]"` succeeds
and returns a set with `negated = False` and no members. -/
theorem c10_empty_set_ok :
    parse "[]" = .ok (.Set false []) := by
  rfl

end Pyreg
